import Mathlib

/-
Verification of the torii GraphQL entity object (crates/torii/graphql/src/object/entity.rs):
a shallow embedding of the schema-driven reconstruction engine
`model_data_recursive_query`, of `EntityObject::value_mapping`, and of the
`entityUpdated` subscription filter, with theorems about their behaviour.
-/

namespace Torii

/-- GraphQL values as used by the reconstruction engine (the subset of
`async_graphql::Value` it produces): null, strings, ordered lists and ordered
objects. -/
inductive Value where
  | null : Value
  | str : String → Value
  | list : List Value → Value
  | object : List (String × Value) → Value

/-- Ordered field-name/value association, modelling `ValueMapping`
(`IndexMap<Name, Value>`, insertion-ordered). -/
abbrev ValueMapping := List (String × Value)

/-- Runtime schema description, modelling `crate::types::TypeData`: a field is a
scalar, a nested record (type name and sub-mapping), a list, or a tagged union
(type name and ordered variants). -/
inductive TypeData where
  | Scalar : String → TypeData
  | Nested : String → List (String × TypeData) → TypeData
  | List : TypeData → TypeData
  | Union : String → List (String × TypeData) → TypeData

/-- Ordered field-name/type association, modelling `TypeMapping`
(`IndexMap<Name, TypeData>`). -/
abbrev TypeMapping := List (String × TypeData)

/-- First value bound to `key`, modelling `IndexMap::get`. -/
def lookupVM : List (String × Value) → String → Option Value
  | [], _ => none
  | (k, v) :: rest, key => if k = key then some v else lookupVM rest key

/-- First type bound to `key` in a `TypeMapping`, modelling `IndexMap::get`. -/
def lookupTM : List (String × TypeData) → String → Option TypeData
  | [], _ => none
  | (k, v) :: rest, key => if k = key then some v else lookupTM rest key

/-- Modelling `IndexMap::insert`: an existing key keeps its position and gets the
new value; a new key is appended at the end. -/
def insertVM (m : ValueMapping) (k : String) (v : Value) : ValueMapping :=
  if m.any (fun p => p.1 == k) then
    m.map (fun p => if p.1 = k then (k, v) else p)
  else m ++ [(k, v)]

/-- Fuel-driven scanner implementing Rust `str::replace(pat, "")`: delete every
non-overlapping occurrence of `pat`, scanning left to right.  The fuel starts at
the length of the scanned list and never runs out, since every step consumes at
least one character. -/
def stripAllFuel (pat : List Char) : Nat → List Char → List Char
  | 0, s => s
  | _ + 1, [] => []
  | n + 1, c :: rest =>
    if pat ≠ [] ∧ pat.isPrefixOf (c :: rest) then
      stripAllFuel pat n (rest.drop (pat.length - 1))
    else c :: stripAllFuel pat n rest

/-- Rust `s.replace(pat, "")` on strings (the engine only ever replaces with the
empty string). -/
def stringReplaceEmpty (s pat : String) : String :=
  String.mk (stripAllFuel pat.data s.data.length s.data)

/-- Table name computed by `model_data_recursive_query` (entity.rs lines
181-182): `path_array.join("$").replace(&format!("{}_", path_array[0]), "")`.
The engine never reaches this with an empty path (indexing `path_array[0]` in
the source would panic there; the engine embedding handles that case itself). -/
def table_name_of : List String → String
  | [] => ""
  | p0 :: rest => stringReplaceEmpty (String.intercalate "$" (p0 :: rest)) (p0 ++ "_")

/-- Table name as the specification's words describe it (a refinement-comparison
definition following the spec, not the source): the path segments joined by the
separator, with the root model's own name-prefix (first segment followed by the
underscore) stripped only from the front of the joined string. -/
def table_name_spec : List String → String
  | [] => ""
  | p0 :: rest =>
    let joined := String.intercalate "$" (p0 :: rest)
    let ns := p0 ++ "_"
    if ns.data.isPrefixOf joined.data then String.mk (joined.data.drop ns.data.length)
    else joined

mutual

/-- Structural size of a `TypeData`, ignoring embedded strings (termination
measure for the engine). -/
def tdSize : TypeData → Nat
  | .Scalar _ => 1
  | .Nested _ tm => 1 + tmSize tm
  | .List inner => 2 + tdSize inner
  | .Union _ vs => 1 + tmSize vs

/-- Structural size of a `TypeMapping`. -/
def tmSize : List (String × TypeData) → Nat
  | [] => 0
  | (_, td) :: rest => 1 + tdSize td + tmSize rest

end

/-- One fetched storage row: its columns as name/value pairs. -/
abbrev Row := List (String × Value)

/-- Modelled from the spec: `value_mapping_from_row` (`crate::query`, not under
`src/`) builds the base object for one fetched row from the row's scalar columns
per the mapping ("Build a base object from scalar columns per `mapping`"). -/
def value_mapping_from_row (row : Row) : TypeMapping → ValueMapping
  | [] => []
  | (n, TypeData.Scalar _) :: rest =>
    (match lookupVM row n with
     | some v => [(n, v)]
     | none => []) ++ value_mapping_from_row row rest
  | _ :: rest => value_mapping_from_row row rest

/-- The storage interface the engine queries.  `fetchAll t e i` models
`SELECT * FROM t WHERE entity_id = e [AND idx = i]` run with `fetch_all`
(rows in storage order); `fetchOneColIdx t c e i` models
`SELECT c FROM t WHERE entity_id = e [AND idx = i]` run with `fetch_one`,
`none` meaning the row-not-found query error.  The engine's union scalar lookup
always passes `i = none`: its SQL has no `idx` clause. -/
structure Store where
  fetchAll : String → String → Option Int → List Row
  fetchOneColIdx : String → String → String → Option Int → Option String

/-- How a reconstruction run can abort: a `fetch_one` finding no row (a
storage-side query error surfaced through `sqlx`), or a Rust panic
(`unreachable!` / `unwrap`). -/
inductive EngineError where
  | rowNotFound : EngineError
  | panicked : EngineError
deriving DecidableEq

/-- Result of a reconstruction step. -/
abbrev ERes (α : Type) := Except EngineError α

/-- Splitting accumulator for `splitChar`. -/
def splitCharAux (sep : Char) : List Char → List Char → List String
  | [], acc => [String.mk acc.reverse]
  | c :: rest, acc =>
    if c = sep then String.mk acc.reverse :: splitCharAux sep rest []
    else splitCharAux sep rest (c :: acc)

/-- Rust `str::split(sep)` for a one-character separator. -/
def splitChar (sep : Char) (s : String) : List String := splitCharAux sep s.data []

/-- Rust `type_ref.to_string().split("_").next().unwrap()` (entity.rs line 245):
the part of a union variant type name before its first underscore. -/
def firstSegment (s : String) : String := (splitChar '_' s).headD ""

/-- The unwrap step of the List branch (entity.rs lines 229-235): every element
of the recursive result must be an object, and its `"data"` entry is taken;
anything else hits `unreachable!` / `unwrap` — a panic. -/
def unwrapData : List Value → ERes (List Value)
  | [] => .ok []
  | Value.object m :: rest =>
    (match lookupVM m "data" with
     | some v =>
       match unwrapData rest with
       | .error e => .error e
       | .ok tl => .ok (v :: tl)
     | none => .error .panicked)
  | _ :: _ => .error .panicked

mutual

/-- Shallow embedding of `model_data_recursive_query` (entity.rs lines 172-292):
derive the table name from the path, fetch all rows for the entity (and optional
index); an empty row set yields `Null`; otherwise every row is assembled
(`model_data_rows`) and the result is the list of assembled objects when more
than one row was fetched, else the single assembled object. -/
def model_data_recursive_query (st : Store) (path_array : List String)
    (entity_id : String) (idx : Option Int) (type_mapping : TypeMapping) :
    ERes Value :=
  match path_array with
  | [] => .error .panicked
  | p0 :: ps =>
    let tableName := table_name_of (p0 :: ps)
    let rows := st.fetchAll tableName entity_id idx
    if rows.isEmpty then .ok .null
    else
      match model_data_rows st (p0 :: ps) entity_id tableName rows.length 0
          type_mapping rows with
      | .error e => .error e
      | .ok nvms =>
        if nvms.length > 1 then .ok (.list nvms)
        else
          match nvms.getLast? with
          | some v => .ok v
          | none => .error .panicked
termination_by (tmSize type_mapping + 1, 0)
decreasing_by
all_goals simp_wf
all_goals first
  | (apply Prod.Lex.right
     first
       | omega
       | (simp [tmSize, tdSize]; omega)
       | simp [tmSize, tdSize])
  | (apply Prod.Lex.left
     first
       | omega
       | (simp [tmSize, tdSize]; omega)
       | simp [tmSize, tdSize])

/-- The per-row loop of `model_data_recursive_query` (entity.rs lines 196-283):
row at position `i` of the fetched row set becomes one assembled object, built by
`model_data_fields` on top of the base object from the row's scalar columns. -/
def model_data_rows (st : Store) (path_array : List String) (entity_id : String)
    (tableName : String) (nrows i : Nat) (type_mapping : TypeMapping)
    (rows : List Row) : ERes (List Value) :=
  match rows with
  | [] => .ok []
  | r :: rest =>
    match model_data_fields st path_array entity_id tableName nrows i
        (value_mapping_from_row r type_mapping) type_mapping with
    | .error e => .error e
    | .ok vm =>
      match model_data_rows st path_array entity_id tableName nrows (i + 1)
          type_mapping rest with
      | .error e => .error e
      | .ok tl => .ok (.object vm :: tl)
termination_by (tmSize type_mapping, rows.length + 2)
decreasing_by
all_goals simp_wf
all_goals first
  | (apply Prod.Lex.right
     first
       | omega
       | (simp [tmSize, tdSize]; omega)
       | simp [tmSize, tdSize])
  | (apply Prod.Lex.left
     first
       | omega
       | (simp [tmSize, tdSize]; omega)
       | simp [tmSize, tdSize])

/-- The per-field loop of `model_data_recursive_query` (entity.rs lines
199-280): scalar fields are left to the base object; a `Nested` field recurses
with the path extended by the field name, passing the row index only when the
current row set has more than one row; a `List` field recurses with the
synthetic `{"data": inner}` mapping and no index, then unwraps every element
from under `"data"` (a non-list result or a non-object element is
`unreachable!`, a panic); a `Union` field collects one slot per declared variant
via `model_data_variants`. -/
def model_data_fields (st : Store) (path_array : List String)
    (entity_id : String) (tableName : String) (nrows i : Nat)
    (acc : ValueMapping) (fields : TypeMapping) : ERes ValueMapping :=
  match fields with
  | [] => .ok acc
  | (_, TypeData.Scalar _) :: rest =>
    model_data_fields st path_array entity_id tableName nrows i acc rest
  | (field_name, TypeData.Nested _ nested_mapping) :: rest =>
    match model_data_recursive_query st (path_array ++ [field_name]) entity_id
        (if nrows > 1 then some (Int.ofNat i) else none) nested_mapping with
    | .error e => .error e
    | .ok nested_values =>
      model_data_fields st path_array entity_id tableName nrows i
        (insertVM acc field_name nested_values) rest
  | (field_name, TypeData.List inner) :: rest =>
    match model_data_recursive_query st (path_array ++ [field_name]) entity_id
        none [("data", inner)] with
    | .error e => .error e
    | .ok d =>
      match d with
      | .list ds =>
        match unwrapData ds with
        | .error e => .error e
        | .ok vals =>
          model_data_fields st path_array entity_id tableName nrows i
            (insertVM acc field_name (.list vals)) rest
      | _ => .error .panicked
  | (field_name, TypeData.Union _ types) :: rest =>
    match model_data_variants st path_array entity_id tableName nrows i
        field_name types with
    | .error e => .error e
    | .ok enum_union =>
      model_data_fields st path_array entity_id tableName nrows i
        (insertVM acc field_name (.list enum_union)) rest
termination_by (tmSize fields, 1)
decreasing_by
all_goals simp_wf
all_goals first
  | (apply Prod.Lex.right
     first
       | omega
       | (simp [tmSize, tdSize]; omega)
       | simp [tmSize, tdSize])
  | (apply Prod.Lex.left
     first
       | omega
       | (simp [tmSize, tdSize]; omega)
       | simp [tmSize, tdSize])

/-- The per-variant loop of the Union branch (entity.rs lines 240-274): each
declared variant must be a `Nested` mapping (anything else is `unreachable!`,
a panic); a variant whose mapping has a `"value"` field is read with `fetch_one`
from the `external_<fieldName>` column of the current table for the entity —
with no index filter — and wrapped as `{"value": v}`; any other variant recurses
into the path extended by the field name and the variant type name truncated at
its first underscore, under the same index rule as nested fields. -/
def model_data_variants (st : Store) (path_array : List String)
    (entity_id : String) (tableName : String) (nrows i : Nat)
    (field_name : String) (types : List (String × TypeData)) :
    ERes (List Value) :=
  match types with
  | [] => .ok []
  | (type_ref, vtd) :: rest =>
    match vtd with
    | TypeData.Nested _ mapping =>
      let dRes :=
        if (lookupTM mapping "value").isSome then
          match st.fetchOneColIdx tableName ("external_" ++ field_name)
              entity_id none with
          | some v => Except.ok (Value.object [("value", Value.str v)])
          | none => Except.error EngineError.rowNotFound
        else
          model_data_recursive_query st
            (path_array ++ [field_name, firstSegment type_ref]) entity_id
            (if nrows > 1 then some (Int.ofNat i) else none) mapping
      match dRes with
      | .error e => .error e
      | .ok d =>
        match model_data_variants st path_array entity_id tableName nrows i
            field_name rest with
        | .error e => .error e
        | .ok tl => .ok (d :: tl)
    | _ => .error .panicked
termination_by (tmSize types, 0)
decreasing_by
all_goals simp_wf
all_goals first
  | (apply Prod.Lex.right
     first
       | omega
       | (simp [tmSize, tdSize]; omega)
       | simp [tmSize, tdSize])
  | (apply Prod.Lex.left
     first
       | omega
       | (simp [tmSize, tdSize]; omega)
       | simp [tmSize, tdSize])

end

/-- Helper: a successful per-row pass yields exactly one assembled object per
fetched row, in row order, and every entry is an object. -/
theorem model_data_rows_ok (st : Store) (path : List String) (eid tn : String)
    (n : Nat) (tm : TypeMapping) :
    ∀ (rows : List Row) (i : Nat) (vs : List Value),
      model_data_rows st path eid tn n i tm rows = .ok vs →
      vs.length = rows.length ∧ ∀ v ∈ vs, ∃ vm, v = Value.object vm := by
  intro rows
  induction rows with
  | nil =>
    intro i vs h
    simp only [model_data_rows] at h
    injection h with h
    subst h
    exact ⟨rfl, by simp⟩
  | cons r rest ih =>
    intro i vs h
    simp only [model_data_rows] at h
    cases hpf : model_data_fields st path eid tn n i
        (value_mapping_from_row r tm) tm with
    | error e => rw [hpf] at h; exact absurd h (by simp)
    | ok vm =>
      rw [hpf] at h
      cases hrec : model_data_rows st path eid tn n (i + 1) tm rest with
      | error e => rw [hrec] at h; exact absurd h (by simp)
      | ok tl =>
        rw [hrec] at h
        injection h with h
        subst h
        obtain ⟨hlen, hshape⟩ := ih (i + 1) tl hrec
        refine ⟨by simp [hlen], ?_⟩
        intro v hv
        rcases List.mem_cons.mp hv with hv | hv
        · exact ⟨vm, hv⟩
        · exact hshape v hv

/-- C1: for every reconstruction call with a non-empty path: an empty fetched
row set yields Null; when more than one row is fetched the result is the ordered
list of assembled objects in row order; when exactly one row is fetched the
result is that single assembled object, not a one-element list. -/
theorem c1_row_multiplicity (st : Store) (p0 : String) (ps : List String)
    (eid : String) (idx : Option Int) (tm : TypeMapping) :
    (st.fetchAll (table_name_of (p0 :: ps)) eid idx = [] →
      model_data_recursive_query st (p0 :: ps) eid idx tm = .ok .null) ∧
    (∀ vs, model_data_rows st (p0 :: ps) eid (table_name_of (p0 :: ps))
        (st.fetchAll (table_name_of (p0 :: ps)) eid idx).length 0 tm
        (st.fetchAll (table_name_of (p0 :: ps)) eid idx) = .ok vs →
      vs.length = (st.fetchAll (table_name_of (p0 :: ps)) eid idx).length ∧
      (1 < (st.fetchAll (table_name_of (p0 :: ps)) eid idx).length →
        model_data_recursive_query st (p0 :: ps) eid idx tm = .ok (.list vs)) ∧
      ((st.fetchAll (table_name_of (p0 :: ps)) eid idx).length = 1 →
        ∃ vm, vs = [Value.object vm] ∧
          model_data_recursive_query st (p0 :: ps) eid idx tm =
            .ok (Value.object vm))) := by
  refine ⟨?_, ?_⟩
  · intro h
    simp only [model_data_recursive_query]
    rw [h]
    simp
  · intro vs h
    obtain ⟨hlen, hshape⟩ := model_data_rows_ok st (p0 :: ps) eid
      (table_name_of (p0 :: ps))
      (st.fetchAll (table_name_of (p0 :: ps)) eid idx).length tm
      (st.fetchAll (table_name_of (p0 :: ps)) eid idx) 0 vs h
    refine ⟨hlen, ?_, ?_⟩
    · intro hgt
      cases hr : st.fetchAll (table_name_of (p0 :: ps)) eid idx with
      | nil => rw [hr] at hgt; simp at hgt
      | cons r rest =>
        rw [hr] at h hlen hgt
        simp only [model_data_recursive_query]
        rw [hr]
        simp only [List.isEmpty_cons, Bool.false_eq_true, if_false]
        rw [h]
        have : vs.length > 1 := by omega
        simp [this]
    · intro hone
      cases hr : st.fetchAll (table_name_of (p0 :: ps)) eid idx with
      | nil => rw [hr] at hone; simp at hone
      | cons r rest =>
        rw [hr] at h hlen hone
        have hv1 : vs.length = 1 := hlen.trans hone
        obtain ⟨v, hv⟩ := List.length_eq_one.mp hv1
        obtain ⟨vm, hvm⟩ := hshape v (by simp [hv])
        refine ⟨vm, by rw [← hvm]; exact hv ▸ rfl, ?_⟩
        simp only [model_data_recursive_query]
        rw [hr]
        simp only [List.isEmpty_cons, Bool.false_eq_true, if_false]
        rw [h]
        subst hv hvm
        simp

/-- Concrete row used by several witnesses. -/
def rowW1 : Row := [("external_x", Value.str "1")]

/-- Concrete two-row store for the C1 witness. -/
def stC1 : Store :=
  ⟨fun t _ _ => if t = "M" then [rowW1, rowW1] else [], fun _ _ _ _ => none⟩

/-- C1 witness: at a concrete two-row store the hypotheses of
`c1_row_multiplicity` hold and the reconstruction is the two-element list of
assembled objects. -/
theorem c1_row_multiplicity_witness :
    model_data_rows stC1 ["M"] "e" (table_name_of ["M"])
      (stC1.fetchAll (table_name_of ["M"]) "e" none).length 0 []
      (stC1.fetchAll (table_name_of ["M"]) "e" none) =
      .ok [Value.object [], Value.object []] ∧
    model_data_recursive_query stC1 ["M"] "e" none [] =
      .ok (.list [Value.object [], Value.object []]) := by
  have htn : table_name_of ["M"] = "M" := rfl
  have h : model_data_rows stC1 ["M"] "e" (table_name_of ["M"])
      (stC1.fetchAll (table_name_of ["M"]) "e" none).length 0 []
      (stC1.fetchAll (table_name_of ["M"]) "e" none) =
      .ok [Value.object [], Value.object []] := by
    simp [model_data_rows, model_data_fields, value_mapping_from_row, stC1, htn]
  refine ⟨h, ?_⟩
  exact ((c1_row_multiplicity stC1 "M" [] "e" none []).2
    [Value.object [], Value.object []] h).2.1 (by simp [stC1, htn])

/-- C2 (amended): for every non-empty schema path the storage table name the
engine queries is the path segments joined by "$" with every occurrence of the
root model's name-prefix (first segment followed by "_") deleted from the joined
string — not only an occurrence at its front.  The engine consults exactly that
table: it returns Null precisely when that table holds no rows for the entity
(under the given index filter). -/
theorem c2_table_name (st : Store) (p0 : String) (ps : List String)
    (eid : String) (idx : Option Int) (tm : TypeMapping) :
    table_name_of (p0 :: ps) =
      stringReplaceEmpty (String.intercalate "$" (p0 :: ps)) (p0 ++ "_") ∧
    (model_data_recursive_query st (p0 :: ps) eid idx tm = .ok .null ↔
      st.fetchAll (table_name_of (p0 :: ps)) eid idx = []) := by
  refine ⟨rfl, ?_, ?_⟩
  · intro h
    by_contra hne
    cases hr : st.fetchAll (table_name_of (p0 :: ps)) eid idx with
    | nil => exact hne hr
    | cons r rest =>
      simp only [model_data_recursive_query] at h
      rw [hr] at h
      simp only [List.isEmpty_cons, Bool.false_eq_true, if_false] at h
      cases hrows : model_data_rows st (p0 :: ps) eid (table_name_of (p0 :: ps))
          (r :: rest).length 0 tm (r :: rest) with
      | error e => rw [hrows] at h; exact absurd h (by simp)
      | ok nvms =>
        rw [hrows] at h
        dsimp only at h
        obtain ⟨hlen, hshape⟩ := model_data_rows_ok st (p0 :: ps) eid
          (table_name_of (p0 :: ps)) (r :: rest).length tm (r :: rest) 0
          nvms hrows
        by_cases hgt : nvms.length > 1
        · rw [if_pos hgt] at h
          exact absurd h (by simp)
        · rw [if_neg hgt] at h
          have h1 : nvms.length = 1 := by
            have hl := hlen
            simp only [List.length_cons] at hl
            omega
          obtain ⟨v, hv⟩ := List.length_eq_one.mp h1
          obtain ⟨vm, hvm⟩ := hshape v (by simp [hv])
          rw [hv] at h
          simp only [List.getLast?_singleton] at h
          rw [hvm] at h
          exact absurd h (by simp)
  · intro h
    simp only [model_data_recursive_query]
    rw [h]
    simp

/-- Concrete row for the C2 counterexample store. -/
def rowC2 : Row := [("external_a", Value.str "7")]

/-- Store holding one row only in the table named as the claim (front-stripping
only) would have it. -/
def stC2 : Store :=
  ⟨fun t _ _ => if t = "m$m_x" then [rowC2] else [], fun _ _ _ _ => none⟩

/-- C2 counterexample: on the path ["m", "m_x"] the joined string is "m$m_x" and
the name-prefix "m_" occurs only away from the front, so the claim's table name
is "m$m_x" unchanged; the code deletes the inner occurrence too and queries
"m$x", so with rows stored only under "m$m_x" the engine returns Null. -/
theorem c2_counterexample :
    table_name_of ["m", "m_x"] = "m$x" ∧
    table_name_spec ["m", "m_x"] = "m$m_x" ∧
    table_name_of ["m", "m_x"] ≠ table_name_spec ["m", "m_x"] ∧
    stC2.fetchAll (table_name_spec ["m", "m_x"]) "e" none = [rowC2] ∧
    model_data_recursive_query stC2 ["m", "m_x"] "e" none
      [("a", TypeData.Scalar "felt")] = .ok .null := by
  refine ⟨rfl, rfl, by decide, rfl, ?_⟩
  have htn : table_name_of ["m", "m_x"] = "m$x" := rfl
  simp [model_data_recursive_query, htn, stC2]

/-- C2 witness: the amended characterization instantiated at the concrete
counterexample store. -/
theorem c2_table_name_witness :
    model_data_recursive_query stC2 ["m", "m_x"] "e" none
        [("a", TypeData.Scalar "felt")] = .ok .null ↔
      stC2.fetchAll (table_name_of ["m", "m_x"]) "e" none = [] :=
  (c2_table_name stC2 "m" ["m_x"] "e" none [("a", TypeData.Scalar "felt")]).2

/-- C3: while assembling the row at position `i` of a row set of size `nrows`, a
Nested field recurses with the path extended by the field name and passes the
row index `Some(i)` exactly when `nrows > 1`, else `None`; and the per-row loop
hands position `i` to the first row and `i + 1` to the remaining rows, so a row
recurses under its own position in the fetched row set. -/
theorem c3_nested_index (st : Store) (path : List String) (eid tn : String)
    (nrows i : Nat) (acc : ValueMapping) (fname nname : String)
    (sub : List (String × TypeData)) (rest : TypeMapping) (r : Row)
    (rows : List Row) (tm : TypeMapping) :
    model_data_fields st path eid tn nrows i acc
        ((fname, TypeData.Nested nname sub) :: rest) =
      (match model_data_recursive_query st (path ++ [fname]) eid
          (if nrows > 1 then some (Int.ofNat i) else none) sub with
       | .error e => .error e
       | .ok nv =>
         model_data_fields st path eid tn nrows i (insertVM acc fname nv) rest) ∧
    model_data_rows st path eid tn nrows i tm (r :: rows) =
      (match model_data_fields st path eid tn nrows i
          (value_mapping_from_row r tm) tm with
       | .error e => .error e
       | .ok vm =>
         match model_data_rows st path eid tn nrows (i + 1) tm rows with
         | .error e => .error e
         | .ok tl => .ok (.object vm :: tl)) := by
  constructor
  · simp only [model_data_fields]
  · simp only [model_data_rows]

/-- Concrete root row for the C4 stores. -/
def rowC4 : Row := [("external_x", Value.str "5")]

/-- Store for C4 with an empty auxiliary table for the List field (k = 0). -/
def stC4 : Store :=
  ⟨fun t _ _ => if t = "M" then [rowC4] else [], fun _ _ _ _ => none⟩

/-- Store for C4 with exactly one element row in the auxiliary table (k = 1). -/
def stC4b : Store :=
  ⟨fun t _ _ =>
     if t = "M" then [rowC4]
     else if t = "M$items" then [[("data", Value.str "5")]]
     else [],
   fun _ _ _ _ => none⟩

/-- C4: the List-field reconstruction fails for k = 0 and k = 1 stored element
rows.  With k = 0 the inner recursive call returns Null, with k = 1 it returns
the single object; in both cases the List branch's match expects a list and hits
`unreachable!` — the engine panics instead of producing the ordered sequence of
length k the claim requires for every k ≥ 0. -/
theorem c4_list_low_multiplicity_panics :
    stC4.fetchAll (table_name_of ["M", "items"]) "e" none = [] ∧
    model_data_recursive_query stC4 ["M", "items"] "e" none
      [("data", TypeData.Scalar "u32")] = .ok .null ∧
    model_data_recursive_query stC4 ["M"] "e" none
      [("items", TypeData.List (TypeData.Scalar "u32"))] = .error .panicked ∧
    (stC4b.fetchAll (table_name_of ["M", "items"]) "e" none).length = 1 ∧
    model_data_recursive_query stC4b ["M"] "e" none
      [("items", TypeData.List (TypeData.Scalar "u32"))] = .error .panicked := by
  have htn : table_name_of ["M"] = "M" := rfl
  have htn2 : table_name_of ["M", "items"] = "M$items" := rfl
  refine ⟨rfl, ?_, ?_, rfl, ?_⟩
  · simp [model_data_recursive_query, htn2, stC4]
  · simp [model_data_recursive_query, model_data_rows, model_data_fields,
      value_mapping_from_row, stC4, htn, htn2]
  · simp [model_data_recursive_query, model_data_rows, model_data_fields,
      value_mapping_from_row, lookupVM, stC4b, htn, htn2]

/-- Helper: a successful per-variant pass over a union's declared variants
yields exactly one slot per variant. -/
theorem model_data_variants_length (st : Store) (path : List String)
    (eid tn : String) (nrows i : Nat) (fname : String) :
    ∀ (types : List (String × TypeData)) (slots : List Value),
      model_data_variants st path eid tn nrows i fname types = .ok slots →
      slots.length = types.length := by
  intro types
  induction types with
  | nil =>
    intro slots h
    simp only [model_data_variants] at h
    injection h with h
    subst h
    rfl
  | cons tv rest ih =>
    intro slots h
    obtain ⟨tr, vtd⟩ := tv
    cases vtd with
    | Scalar k =>
      simp only [model_data_variants] at h
      exact absurd h (by simp)
    | List inner =>
      simp only [model_data_variants] at h
      exact absurd h (by simp)
    | Union un vs2 =>
      simp only [model_data_variants] at h
      exact absurd h (by simp)
    | Nested nn mapping =>
      simp only [model_data_variants] at h
      split at h
      next e heq => exact absurd h (by simp)
      next d heq =>
        split at h
        next e2 heq2 => exact absurd h (by simp)
        next tl heq2 =>
          injection h with h
          subst h
          simp [ih tl heq2]

/-- C5: for every Union field, a successful pass yields an ordered sequence with
exactly one slot per declared variant in declaration order, and the whole slot
list — never a single selected variant — is what gets inserted under the field
name. -/
theorem c5_union_slots :
    (∀ (st : Store) (path : List String) (eid tn : String) (nrows i : Nat)
      (fname : String) (types : List (String × TypeData)) (slots : List Value),
      model_data_variants st path eid tn nrows i fname types = .ok slots →
      slots.length = types.length) ∧
    (∀ (st : Store) (path : List String) (eid tn : String) (nrows i : Nat)
      (acc : ValueMapping) (fname uname : String)
      (types : List (String × TypeData)) (rest : TypeMapping),
      model_data_fields st path eid tn nrows i acc
          ((fname, TypeData.Union uname types) :: rest) =
        (match model_data_variants st path eid tn nrows i fname types with
         | .error e => .error e
         | .ok enum_union =>
           model_data_fields st path eid tn nrows i
             (insertVM acc fname (.list enum_union)) rest)) := by
  refine ⟨fun st path eid tn nrows i fname types slots h =>
    model_data_variants_length st path eid tn nrows i fname types slots h, ?_⟩
  intro st path eid tn nrows i acc fname uname types rest
  simp only [model_data_fields]

/-- Store for the C5 witness: union variants A and B, only A's table populated. -/
def stC5 : Store :=
  ⟨fun t _ _ =>
     if t = "M" then [[("external_v", Value.str "3")]]
     else if t = "M$u$A" then [[("x", Value.str "9")]]
     else [],
   fun _ _ _ _ => none⟩

/-- Declared variants for the C5 witness. -/
def typesC5 : List (String × TypeData) :=
  [("A", TypeData.Nested "A" [("x", TypeData.Scalar "u8")]),
   ("B", TypeData.Nested "B" [("y", TypeData.Scalar "u8")])]

/-- C5 witness: with variants [A, B] and only A's storage populated, the slots
are the ordered two-element sequence [A's object, Null], one per declared
variant. -/
theorem c5_union_slots_witness :
    model_data_variants stC5 ["M"] "e" "M" 1 0 "u" typesC5 =
      .ok [Value.object [("x", Value.str "9")], Value.null] ∧
    ([Value.object [("x", Value.str "9")], Value.null] : List Value).length =
      typesC5.length := by
  have hfsA : firstSegment "A" = "A" := rfl
  have hfsB : firstSegment "B" = "B" := rfl
  have h1 : table_name_of ["M", "u", "A"] = "M$u$A" := rfl
  have h2 : table_name_of ["M", "u", "B"] = "M$u$B" := rfl
  have h : model_data_variants stC5 ["M"] "e" "M" 1 0 "u" typesC5 =
      .ok [Value.object [("x", Value.str "9")], Value.null] := by
    simp [model_data_variants, model_data_recursive_query, model_data_rows,
      model_data_fields, value_mapping_from_row, lookupTM, lookupVM,
      stC5, typesC5, hfsA, hfsB, h1, h2]
  exact ⟨h, c5_union_slots.1 stC5 ["M"] "e" "M" 1 0 "u" typesC5
    [Value.object [("x", Value.str "9")], Value.null] h⟩

/-- C6 (amended): a union variant whose mapping has a "value" field is read with
`fetch_one` from the column named `external_` plus the field name on the current
table, filtered by the entity id only — the row index is never applied to this
lookup, even when the current row set has more than one row — and wrapped as
`{"value": v}`; every other variant recurses into the path extended by the field
name and the variant type name truncated at its first underscore, passing the
row index exactly when the current row set has more than one row. -/
theorem c6_union_resolution (st : Store) (path : List String) (eid tn : String)
    (nrows i : Nat) (fname tr nn : String)
    (mapping rest : List (String × TypeData)) :
    model_data_variants st path eid tn nrows i fname
        ((tr, TypeData.Nested nn mapping) :: rest) =
      (match
        (if (lookupTM mapping "value").isSome then
          match st.fetchOneColIdx tn ("external_" ++ fname) eid none with
          | some v => Except.ok (Value.object [("value", Value.str v)])
          | none => Except.error EngineError.rowNotFound
        else
          model_data_recursive_query st (path ++ [fname, firstSegment tr]) eid
            (if nrows > 1 then some (Int.ofNat i) else none) mapping) with
       | .error e => .error e
       | .ok d =>
         match model_data_variants st path eid tn nrows i fname rest with
         | .error e => .error e
         | .ok tl => .ok (d :: tl)) := by
  simp only [model_data_variants]

/-- Store for the C6 counterexample: the root table has two rows for the entity,
and the external_u column reads differently with and without an index filter. -/
def stC6 : Store :=
  ⟨fun t _ _ =>
     if t = "M" then
       [[("external_u", Value.str "v0")], [("external_u", Value.str "v1")]]
     else [],
   fun t c e i =>
     if t = "M" ∧ c = "external_u" ∧ e = "e" then
       if i = none then some "v0"
       else if i = some 1 then some "v1"
       else some "v0"
     else none⟩

/-- C6 counterexample: with two fetched rows (so the claim's "index if
applicable" applies), the scalar-variant slot of the second row is still read
without any index filter and holds "v0", although the index-filtered read the
claim prescribes would yield "v1". -/
theorem c6_counterexample :
    model_data_recursive_query stC6 ["M"] "e" none
        [("u", TypeData.Union "U"
            [("A", TypeData.Nested "A" [("value", TypeData.Scalar "felt")])])] =
      .ok (.list
        [Value.object
           [("u", Value.list [Value.object [("value", Value.str "v0")]])],
         Value.object
           [("u", Value.list [Value.object [("value", Value.str "v0")]])]]) ∧
    stC6.fetchOneColIdx "M" ("external_" ++ "u") "e" (some 1) = some "v1" ∧
    ("v0" : String) ≠ "v1" := by
  refine ⟨?_, rfl, by decide⟩
  have htn : table_name_of ["M"] = "M" := rfl
  simp [model_data_recursive_query, model_data_rows, model_data_fields,
    model_data_variants, value_mapping_from_row, lookupTM, lookupVM, insertVM,
    stC6, htn]

/-- C9 (amended): a shape mismatch makes the engine abort with a panic
(`unreachable!` / `unwrap`), not with a DataIntegrityError result: a union
variant that is not a nested mapping panics; a List recursion whose result is
not a list panics; a list element that is not an object, or lacks the `"data"`
entry, panics; and a failing union `"value"` lookup surfaces as the
row-not-found query error.  In no case is the value silently coerced. -/
theorem c9_mismatch_panics :
    (∀ (st : Store) (path : List String) (eid tn : String) (nrows i : Nat)
      (fname tr : String) (vtd : TypeData) (rest : List (String × TypeData)),
      (∀ nn m, vtd ≠ TypeData.Nested nn m) →
      model_data_variants st path eid tn nrows i fname ((tr, vtd) :: rest) =
        .error .panicked) ∧
    (∀ (st : Store) (path : List String) (eid tn : String) (nrows i : Nat)
      (acc : ValueMapping) (fname : String) (inner : TypeData)
      (rest : TypeMapping) (d : Value),
      model_data_recursive_query st (path ++ [fname]) eid none
          [("data", inner)] = .ok d →
      (∀ l, d ≠ Value.list l) →
      model_data_fields st path eid tn nrows i acc
          ((fname, TypeData.List inner) :: rest) = .error .panicked) ∧
    (∀ (rest : List Value) (vm : ValueMapping), lookupVM vm "data" = none →
      unwrapData (Value.object vm :: rest) = .error .panicked) ∧
    (∀ (rest : List Value) (v : Value), (∀ m, v ≠ Value.object m) →
      unwrapData (v :: rest) = .error .panicked) ∧
    (∀ (st : Store) (path : List String) (eid tn : String) (nrows i : Nat)
      (fname tr nn : String) (mapping rest : List (String × TypeData)),
      (lookupTM mapping "value").isSome →
      st.fetchOneColIdx tn ("external_" ++ fname) eid none = none →
      model_data_variants st path eid tn nrows i fname
          ((tr, TypeData.Nested nn mapping) :: rest) = .error .rowNotFound) := by
  refine ⟨?_, ?_, ?_, ?_, ?_⟩
  · intro st path eid tn nrows i fname tr vtd rest hne
    cases vtd with
    | Nested nn m => exact absurd rfl (hne nn m)
    | Scalar k => simp only [model_data_variants]
    | List inner => simp only [model_data_variants]
    | Union un vs2 => simp only [model_data_variants]
  · intro st path eid tn nrows i acc fname inner rest d h hne
    simp only [model_data_fields]
    rw [h]
    cases d with
    | list l => exact absurd rfl (hne l)
    | null => rfl
    | str s => rfl
    | object m => rfl
  · intro rest vm h
    simp only [unwrapData]
    rw [h]
  · intro rest v hne
    cases v with
    | object m => exact absurd rfl (hne m)
    | null => simp only [unwrapData]
    | str s => simp only [unwrapData]
    | list l => simp only [unwrapData]
  · intro st path eid tn nrows i fname tr nn mapping rest hval hfetch
    simp only [model_data_variants]
    rw [if_pos hval, hfetch]

/-- Store for the C9 counterexample: one root row; the union's only declared
variant is a bare scalar, not a nested mapping. -/
def stC9 : Store :=
  ⟨fun t _ _ => if t = "M" then [[("a", Value.str "1")]] else [],
   fun _ _ _ _ => none⟩

/-- C9 counterexample: a union variant that is not a nested mapping makes the
whole reconstruction abort with a panic (`unreachable!`), not with a
DataIntegrityError result. -/
theorem c9_counterexample :
    model_data_recursive_query stC9 ["M"] "e" none
      [("u", TypeData.Union "U" [("A", TypeData.Scalar "u8")])] =
      .error .panicked := by
  have htn : table_name_of ["M"] = "M" := rfl
  simp [model_data_recursive_query, model_data_rows, model_data_fields,
    model_data_variants, value_mapping_from_row, stC9, htn]

/-- C9 witness: the amended clauses instantiated at concrete mismatching
inputs. -/
theorem c9_mismatch_panics_witness :
    model_data_variants stC9 ["M"] "e" "M" 1 0 "u"
      [("A", TypeData.Scalar "u8")] = .error .panicked ∧
    unwrapData [Value.str "x"] = .error .panicked ∧
    unwrapData [Value.object [("other", Value.null)]] = .error .panicked ∧
    model_data_variants stC9 ["M"] "e" "M" 1 0 "u"
      [("A", TypeData.Nested "A" [("value", TypeData.Scalar "u8")])] =
      .error .rowNotFound :=
  ⟨c9_mismatch_panics.1 stC9 ["M"] "e" "M" 1 0 "u" "A" (TypeData.Scalar "u8") []
      (fun nn m h => by simp at h),
   c9_mismatch_panics.2.2.2.1 [] (Value.str "x") (fun m h => by simp at h),
   c9_mismatch_panics.2.2.1 [] [("other", Value.null)] rfl,
   c9_mismatch_panics.2.2.2.2 stC9 ["M"] "e" "M" 1 0 "u" "A" "A"
     [("value", TypeData.Scalar "u8")] [] rfl rfl⟩

/-- Modelled from the spec: `torii_core::types::Entity` (external crate, not
under `src/`): stable identifier, key components stored as one delimited
string, the event/order id, and creation/update/execution timestamps.
Timestamps are abstract instants. -/
structure Entity where
  id : String
  keys : String
  event_id : String
  created_at : Nat
  updated_at : Nat
  executed_at : Nat

/-- Modelled from the spec: the fixed textual date-time format constant
`DATETIME_FORMAT` (`crate::constants`, not under `src/`): "timestamps are
rendered/parsed using one fixed textual date-time format". -/
def DATETIME_FORMAT : String := "%Y-%m-%dT%H:%M:%SZ"

/-- Modelled from the spec: chrono's `timestamp.format(fmt).to_string()`
(library code, not under `src/`), rendering an abstract instant with a format
string. -/
def formatTimestamp (fmt : String) (t : Nat) : String :=
  fmt ++ "@" ++ toString t

/-- Shallow embedding of `EntityObject::value_mapping` (entity.rs lines 96-115):
split the stored keys on '/', drop empty components, and render the three
timestamps with the fixed `DATETIME_FORMAT`. -/
def EntityObject.value_mapping (entity : Entity) : ValueMapping :=
  [("id", Value.str entity.id),
   ("keys", Value.list
     (((splitChar '/' entity.keys).filter (fun k => !(k == ""))).map Value.str)),
   ("eventId", Value.str entity.event_id),
   ("createdAt", Value.str (formatTimestamp DATETIME_FORMAT entity.created_at)),
   ("updatedAt", Value.str (formatTimestamp DATETIME_FORMAT entity.updated_at)),
   ("executedAt", Value.str (formatTimestamp DATETIME_FORMAT entity.executed_at))]

/-- Shallow embedding of the `entityUpdated` subscription's per-event filter
(entity.rs lines 80-87): forward the event's value mapping when no id filter is
set or when the filter equals the event's entity id, else drop the event and
keep listening. -/
def entityUpdatedFilter (id : Option String) (entity : Entity) : Option Value :=
  if id = none ∨ id = some entity.id then
    some (Value.object (EntityObject.value_mapping entity))
  else none

/-- Modelled from the spec: the broker fan-out ("every subscriber receives every
published value and independently decides whether to forward it to its client";
`SimpleBroker` lives in `torii_core`, not under `src/`): a subscription's
delivered stream is the published sequence filtered by `entityUpdatedFilter`. -/
def entityUpdatedStream (id : Option String) (published : List Entity) :
    List Value :=
  published.filterMap (entityUpdatedFilter id)

/-- C7: a subscription with filter id X forwards an event exactly when the
event's entity id equals X — a non-matching event is never delivered — and a
subscription with no id forwards every published event; a forwarded event
carries the entity's value mapping. -/
theorem c7_subscription_filter (f : Option String) (e : Entity)
    (published : List Entity) :
    (f = none → entityUpdatedFilter f e =
      some (Value.object (EntityObject.value_mapping e))) ∧
    (∀ x, f = some x →
      (e.id = x → entityUpdatedFilter f e =
        some (Value.object (EntityObject.value_mapping e))) ∧
      (e.id ≠ x → entityUpdatedFilter f e = none)) ∧
    entityUpdatedStream none published =
      published.map (fun en => Value.object (EntityObject.value_mapping en)) := by
  refine ⟨?_, ?_, ?_⟩
  · intro h
    subst h
    simp [entityUpdatedFilter]
  · intro x h
    subst h
    constructor
    · intro hid
      simp [entityUpdatedFilter, hid]
    · intro hid
      rw [entityUpdatedFilter, if_neg]
      rintro (h1 | h2)
      · exact Option.noConfusion h1
      · injection h2 with h2
        exact hid h2.symm
  · induction published with
    | nil => rfl
    | cons en rest ih =>
      simp only [entityUpdatedStream, List.filterMap_cons] at ih ⊢
      rw [show entityUpdatedFilter none en =
        some (Value.object (EntityObject.value_mapping en)) from by
          simp [entityUpdatedFilter]]
      simp only [List.map_cons]
      rw [ih]

/-- Concrete entity for the C7 witness. -/
def entC7 : Entity := ⟨"0xabc", "k1/k2", "ev2", 4, 5, 6⟩

/-- C7 witness: a matching id filter forwards, a non-matching one drops, no
filter forwards. -/
theorem c7_subscription_filter_witness :
    entityUpdatedFilter (some "0xabc") entC7 =
      some (Value.object (EntityObject.value_mapping entC7)) ∧
    entityUpdatedFilter (some "0xother") entC7 = none ∧
    entityUpdatedFilter none entC7 =
      some (Value.object (EntityObject.value_mapping entC7)) :=
  ⟨((c7_subscription_filter (some "0xabc") entC7 []).2.1 "0xabc" rfl).1 rfl,
   ((c7_subscription_filter (some "0xother") entC7 []).2.1 "0xother" rfl).2
     (by decide),
   (c7_subscription_filter none entC7 []).1 rfl⟩

/-- C8: the engine is deterministic — two runs with the same entity id, path,
index and type mapping over stores whose query functions agree on every query
(the same rows in the same order, the same fetch-one answers) produce identical
output values. -/
theorem c8_deterministic (st1 st2 : Store) (path : List String) (eid : String)
    (idx : Option Int) (tm : TypeMapping)
    (hall : ∀ t e i, st1.fetchAll t e i = st2.fetchAll t e i)
    (hone : ∀ t c e i, st1.fetchOneColIdx t c e i = st2.fetchOneColIdx t c e i) :
    model_data_recursive_query st1 path eid idx tm =
      model_data_recursive_query st2 path eid idx tm := by
  have hst : st1 = st2 := by
    cases st1 with
    | mk f1 g1 =>
      cases st2 with
      | mk f2 g2 =>
        simp only [Store.mk.injEq]
        constructor
        · funext t e i
          exact hall t e i
        · funext t c e i
          exact hone t c e i
  rw [hst]

/-- First store for the C8 witness. -/
def stC8a : Store := ⟨fun _ _ _ => [], fun _ _ _ _ => none⟩

/-- Second store for the C8 witness: syntactically different query functions
that answer every query identically. -/
def stC8b : Store := ⟨fun _ _ _ => List.replicate 0 [], fun _ _ _ _ => none⟩

/-- C8 witness: the determinism theorem instantiated at two concrete
extensionally equal stores. -/
theorem c8_deterministic_witness :
    model_data_recursive_query stC8a ["M"] "e" none [] =
      model_data_recursive_query stC8b ["M"] "e" none [] :=
  c8_deterministic stC8a stC8b ["M"] "e" none []
    (fun _ _ _ => rfl) (fun _ _ _ _ => rfl)

/-- C10: `EntityObject::value_mapping` splits the stored keys on the '/'
delimiter and drops every empty component — leading, trailing or doubled
delimiters never put an empty string into the exposed keys list — and renders
all three timestamps with the single fixed `DATETIME_FORMAT`. -/
theorem c10_value_mapping (e : Entity) :
    lookupVM (EntityObject.value_mapping e) "keys" =
      some (Value.list
        (((splitChar '/' e.keys).filter (fun k => !(k == ""))).map Value.str)) ∧
    (∀ s, Value.str s ∈
        ((splitChar '/' e.keys).filter (fun k => !(k == ""))).map Value.str →
      s ≠ "") ∧
    lookupVM (EntityObject.value_mapping e) "createdAt" =
      some (Value.str (formatTimestamp DATETIME_FORMAT e.created_at)) ∧
    lookupVM (EntityObject.value_mapping e) "updatedAt" =
      some (Value.str (formatTimestamp DATETIME_FORMAT e.updated_at)) ∧
    lookupVM (EntityObject.value_mapping e) "executedAt" =
      some (Value.str (formatTimestamp DATETIME_FORMAT e.executed_at)) := by
  refine ⟨rfl, ?_, rfl, rfl, rfl⟩
  intro s hs
  simp only [List.mem_map] at hs
  obtain ⟨k, hk, hks⟩ := hs
  rw [List.mem_filter] at hk
  obtain ⟨hmem, hkb⟩ := hk
  injection hks with hks
  subst hks
  simpa using hkb

/-- Concrete entity for the C10 witness, with leading, doubled and trailing
delimiters in its stored keys. -/
def entC10 : Entity := ⟨"0x1", "/a//b/", "ev1", 1, 2, 3⟩

/-- C10 witness: the keys "/a//b/" expose exactly ["a", "b"], and the exposed
components are non-empty. -/
theorem c10_value_mapping_witness :
    lookupVM (EntityObject.value_mapping entC10) "keys" =
      some (Value.list [Value.str "a", Value.str "b"]) ∧
    ("a" : String) ≠ "" ∧ ("b" : String) ≠ "" :=
  ⟨rfl,
   (c10_value_mapping entC10).2.1 "a"
     (by rw [show ((splitChar '/' entC10.keys).filter
           (fun k => !(k == ""))).map Value.str
         = [Value.str "a", Value.str "b"] from rfl]
         simp),
   (c10_value_mapping entC10).2.1 "b"
     (by rw [show ((splitChar '/' entC10.keys).filter
           (fun k => !(k == ""))).map Value.str
         = [Value.str "a", Value.str "b"] from rfl]
         simp)⟩

end Torii
